import Mathlib

/-!
Verification of `clean_inventory_system.py`.

The program keeps a module-level dict `stock_data : Dict[str, int]` and
exposes `add_item`, `remove_item`, `get_qty`, `check_low_items`,
`load_data`, `save_data`, `print_data`.

Shallow embedding choices:
* The dict is an insertion-ordered association list `Store`; Python dict
  semantics (update-in-place keeps position, new key appended at the end,
  `del` removes the entry, iteration in insertion order) are mirrored by
  `storeGet` / `storeSet` / `storeErase`.
* Python dynamic typing is modelled by `PyVal` where an operation performs
  `isinstance` checks (`add_item`, `remove_item`, `check_low_items`).
* Python exceptions are the `Exc` inductive; each operation returns an
  `OpResult`: the store after the call (identical to the store at the
  raise point on error, tracing the statement order of the source), the
  `Except` outcome, and the `logger` records emitted (`LogMsg`).
* JSON-decoded file contents are the `Json` inductive (JSON numbers are
  modelled as integers; float literals are outside the model).  A file is
  `FileContent`: missing, syntactically invalid JSON, or a decoded value.
  `int(v)` on a decoded value is `pyInt`.
* The timestamped `logs` accumulator argument of `add_item` is omitted
  (real wall-clock time); the `logger` side channel is kept.
-/

/-- Python exceptions raised by the program. -/
inductive Exc where
  | typeError
  | valueError
  | keyError (key : String)
  | jsonDecodeError
  deriving DecidableEq, Repr

/-- Dynamically typed Python values, as far as the argument checks of the
program distinguish them. -/
inductive PyVal where
  | int (n : Int)
  | str (s : String)
  | noneVal
  | floatVal
  | listVal
  deriving DecidableEq, Repr

/-- JSON values as produced by a successful `json.load` (numbers modelled
as integers). -/
inductive Json where
  | null
  | bool (b : Bool)
  | num (n : Int)
  | str (s : String)
  | arr (elems : List Json)
  | obj (kvs : List (String × Json))

/-- Contents found at a file path when `load_data` opens it. -/
inductive FileContent where
  | missing
  | invalidJson
  | json (j : Json)

/-- Records emitted through the module `logger`, one constructor per call
site in the source, carrying the formatted-in data. -/
inductive LogMsg where
  | errAddBadItem
  | errAddQtyNotInt
  | errAddQtyNeg
  | infoAdded (qty : Int) (item : String)
  | errRemoveBadItem
  | errRemoveQtyNotInt
  | errRemoveQtyNonpos
  | errRemoveNotFound (item : String)
  | infoRemovedAll (item : String)
  | infoRemoved (qty : Int) (item : String) (remaining : Int)
  | errGetNotFound (item : String)
  | infoLoaded (count : Nat)
  | warnFileNotFound
  | excFailedParse
  | infoSaved (count : Nat)
  | infoItemsReport
  | infoItemLine (item : String) (qty : Int)
  deriving DecidableEq, Repr

/-- The `stock_data` dict: insertion-ordered association list. -/
abbrev Store := List (String × Int)

/-- Membership / indexing of the dict: first (only) entry with the key. -/
def storeGet : Store → String → Option Int
  | [], _ => none
  | (a, b) :: t, k => if a = k then some b else storeGet t k

/-- Dict assignment `d[k] = v`: update in place keeping the position, or
append a new entry at the end. -/
def storeSet : Store → String → Int → Store
  | [], k, v => [(k, v)]
  | (a, b) :: t, k, v => if a = k then (a, v) :: t else (a, b) :: storeSet t k v

/-- Dict deletion `del d[k]`: drop the entry with the key. -/
def storeErase : Store → String → Store
  | [], _ => []
  | (a, b) :: t, k => if a = k then t else (a, b) :: storeErase t k

/-- The keys of the store, in order. -/
def storeKeys (st : Store) : List String := st.map Prod.fst

/-- Result of one operation: the store after the call (also on error),
the returned value or raised exception, and the logger records. -/
structure OpResult (α : Type) where
  store : Store
  result : Except Exc α
  logs : List LogMsg

/-- Embeds `add_item(item, qty)`: validates `item` is a non-empty string
and `qty` a non-negative integer, then does
`stock_data[item] = stock_data.get(item, 0) + qty`. -/
def add_item (st : Store) (item qty : PyVal) : OpResult Unit :=
  match item with
  | PyVal.str s =>
    if s = "" then ⟨st, Except.error Exc.typeError, [LogMsg.errAddBadItem]⟩
    else
      match qty with
      | PyVal.int n =>
        if n < 0 then ⟨st, Except.error Exc.valueError, [LogMsg.errAddQtyNeg]⟩
        else ⟨storeSet st s ((storeGet st s).getD 0 + n), Except.ok (),
              [LogMsg.infoAdded n s]⟩
      | _ => ⟨st, Except.error Exc.typeError, [LogMsg.errAddQtyNotInt]⟩
  | _ => ⟨st, Except.error Exc.typeError, [LogMsg.errAddBadItem]⟩

/-- Embeds `remove_item(item, qty)`: validates arguments, raises
`KeyError` on an absent item, deletes the entry when `qty >= current`,
otherwise stores `current - qty`. -/
def remove_item (st : Store) (item qty : PyVal) : OpResult Unit :=
  match item with
  | PyVal.str s =>
    if s = "" then ⟨st, Except.error Exc.typeError, [LogMsg.errRemoveBadItem]⟩
    else
      match qty with
      | PyVal.int n =>
        if n ≤ 0 then ⟨st, Except.error Exc.valueError, [LogMsg.errRemoveQtyNonpos]⟩
        else
          match storeGet st s with
          | none => ⟨st, Except.error (Exc.keyError s), [LogMsg.errRemoveNotFound s]⟩
          | some current =>
            if current ≤ n then
              ⟨storeErase st s, Except.ok (), [LogMsg.infoRemovedAll s]⟩
            else
              ⟨storeSet st s (current - n), Except.ok (),
               [LogMsg.infoRemoved n s (current - n)]⟩
      | _ => ⟨st, Except.error Exc.typeError, [LogMsg.errRemoveQtyNotInt]⟩
  | _ => ⟨st, Except.error Exc.typeError, [LogMsg.errRemoveBadItem]⟩

/-- Embeds `get_qty(item)`: `KeyError` when absent, else the quantity. -/
def get_qty (st : Store) (item : String) : OpResult Int :=
  match storeGet st item with
  | none => ⟨st, Except.error (Exc.keyError item), [LogMsg.errGetNotFound item]⟩
  | some q => ⟨st, Except.ok q, []⟩

/-- Embeds `check_low_items(threshold)`: `ValueError` unless the threshold
is a non-negative integer, else the names with quantity strictly below the
threshold in iteration order. -/
def check_low_items (st : Store) (threshold : PyVal) : OpResult (List String) :=
  match threshold with
  | PyVal.int t =>
    if t < 0 then ⟨st, Except.error Exc.valueError, []⟩
    else ⟨st, Except.ok ((st.filter (fun kv => kv.2 < t)).map Prod.fst), []⟩
  | _ => ⟨st, Except.error Exc.valueError, []⟩

/-- Embeds Python `int(v)` applied to a JSON-decoded value: integers stay,
booleans coerce to 0/1, strings are parsed (`ValueError` when they do not
denote an integer), and `null` / arrays / objects raise `TypeError`. -/
def pyInt : Json → Except Exc Int
  | Json.num n => Except.ok n
  | Json.bool b => Except.ok (if b then 1 else 0)
  | Json.str s =>
    match s.toInt? with
    | some n => Except.ok n
    | none => Except.error Exc.valueError
  | Json.null => Except.error Exc.typeError
  | Json.arr _ => Except.error Exc.typeError
  | Json.obj _ => Except.error Exc.typeError

/-- True when `int(v)` succeeds on the value. -/
def intCoercible (j : Json) : Bool :=
  match pyInt j with
  | Except.ok _ => true
  | Except.error _ => false

/-- The dict comprehension `{str(k): int(v) for k, v in data.items()}`,
evaluated pair by pair in order; the first failing `int(v)` raises (JSON
object keys are already strings, so `str(k)` is the identity). -/
def coerceVals : List (String × Json) → Except Exc (List (String × Int))
  | [] => Except.ok []
  | (k, v) :: t =>
    match pyInt v with
    | Except.error e => Except.error e
    | Except.ok n =>
      match coerceVals t with
      | Except.error e => Except.error e
      | Except.ok r => Except.ok ((k, n) :: r)

/-- Builds the fresh dict from the coerced pairs (later duplicate keys
overwrite, as in a dict comprehension). -/
def buildStore (pairs : List (String × Int)) : Store :=
  pairs.foldl (fun acc kv => storeSet acc kv.1 kv.2) []

/-- Embeds `load_data(file)`: a missing file resets the inventory to empty
with a warning; invalid JSON re-raises `json.JSONDecodeError` after
logging; a non-object document raises `ValueError` (logged, re-raised); a
value on which `int` fails raises before `stock_data` is assigned, so the
old store is kept (`TypeError` escapes the except clause unlogged). -/
def load_data (st : Store) (content : FileContent) : OpResult Unit :=
  match content with
  | FileContent.missing => ⟨[], Except.ok (), [LogMsg.warnFileNotFound]⟩
  | FileContent.invalidJson =>
    ⟨st, Except.error Exc.jsonDecodeError, [LogMsg.excFailedParse]⟩
  | FileContent.json j =>
    match j with
    | Json.obj kvs =>
      match coerceVals kvs with
      | Except.ok pairs =>
        let s := buildStore pairs
        ⟨s, Except.ok (), [LogMsg.infoLoaded s.length]⟩
      | Except.error e =>
        ⟨st, Except.error e,
         if e = Exc.valueError then [LogMsg.excFailedParse] else []⟩
    | _ => ⟨st, Except.error Exc.valueError, [LogMsg.excFailedParse]⟩

/-- The JSON document `json.dump(stock_data, f)` writes when the file
opens successfully: an object with the store's pairs in iteration order. -/
def save_content (st : Store) : FileContent :=
  FileContent.json (Json.obj (st.map (fun kv => (kv.1, Json.num kv.2))))

/-- Embeds `save_data`: never assigns `stock_data`; on success it writes
`save_content` and logs, on `OSError` it logs and re-raises. -/
def save_data (st : Store) : OpResult FileContent :=
  ⟨st, Except.ok (save_content st), [LogMsg.infoSaved st.length]⟩

/-- Embeds `print_data()`: pure read, one info line per item in order. -/
def print_data (st : Store) : OpResult Unit :=
  ⟨st, Except.ok (),
   LogMsg.infoItemsReport :: st.map (fun kv => LogMsg.infoItemLine kv.1 kv.2)⟩

/-- One invocation of an operation of the program, with its arguments. -/
inductive Op where
  | add (item qty : PyVal)
  | remove (item qty : PyVal)
  | getQty (item : String)
  | checkLow (threshold : PyVal)
  | load (content : FileContent)
  | save
  | printReport

/-- The store after running one operation (whether it returns or raises):
the store component of the operation's embedding. -/
def step (st : Store) : Op → Store
  | Op.add i q => (add_item st i q).store
  | Op.remove i q => (remove_item st i q).store
  | Op.getQty i => (get_qty st i).store
  | Op.checkLow t => (check_low_items st t).store
  | Op.load c => (load_data st c).store
  | Op.save => (save_data st).store
  | Op.printReport => (print_data st).store

/-- States reachable from the empty inventory by a sequence of operations
(with arbitrary arguments and arbitrary file contents for loads). -/
def Reachable (st : Store) : Prop :=
  ∃ ops : List Op, ops.foldl step [] = st

/-- Every stored quantity is non-negative. -/
def allNonneg (st : Store) : Prop := ∀ kv ∈ st, 0 ≤ kv.2

/-- An operation that is not a load, or a load of contents all of whose
integer-coercible values are non-negative. -/
def GoodOp : Op → Prop
  | Op.load (FileContent.json (Json.obj kvs)) =>
    ∀ kv ∈ kvs, ∀ n : Int, pyInt kv.2 = Except.ok n → 0 ≤ n
  | _ => True

/-- Runs `add_item(item, q)` once per quantity in the list, in order. -/
def addAll (st : Store) (item : String) (qs : List Int) : Store :=
  qs.foldl (fun s q => (add_item s (PyVal.str item) (PyVal.int q)).store) st

/-! Store lemmas. -/

theorem storeGet_set_self (st : Store) (k : String) (v : Int) :
    storeGet (storeSet st k v) k = some v := by
  induction st with
  | nil => simp [storeSet, storeGet]
  | cons a t ih =>
    by_cases h : a.1 = k
    · simp [storeSet, storeGet, h]
    · simpa [storeSet, storeGet, h] using ih

theorem storeGet_eq_none_of_not_mem (st : Store) (k : String)
    (h : k ∉ storeKeys st) : storeGet st k = none := by
  induction st with
  | nil => simp [storeGet]
  | cons a t ih =>
    obtain ⟨x, y⟩ := a
    simp only [storeKeys, List.map_cons, List.mem_cons] at h
    push_neg at h
    have hne : x ≠ k := fun hh => h.1 hh.symm
    simpa [storeGet, hne] using ih (by simpa [storeKeys] using h.2)

theorem storeGet_erase_self (st : Store) (k : String)
    (h : (storeKeys st).Nodup) : storeGet (storeErase st k) k = none := by
  induction st with
  | nil => simp [storeErase, storeGet]
  | cons a t ih =>
    obtain ⟨x, y⟩ := a
    simp only [storeKeys, List.map_cons, List.nodup_cons] at h
    by_cases hk : x = k
    · subst hk
      simpa [storeErase] using storeGet_eq_none_of_not_mem t x h.1
    · simpa [storeErase, storeGet, hk] using ih h.2

theorem storeGet_mem (st : Store) (k : String) (v : Int)
    (h : storeGet st k = some v) : (k, v) ∈ st := by
  induction st with
  | nil => simp [storeGet] at h
  | cons a t ih =>
    obtain ⟨x, y⟩ := a
    by_cases hk : x = k
    · simp only [storeGet, hk, if_pos] at h
      cases h
      subst hk
      exact List.mem_cons_self _ _
    · simp only [storeGet, hk, if_neg, not_false_iff] at h
      exact List.mem_cons_of_mem _ (ih h)

theorem mem_storeSet (st : Store) (k : String) (v : Int) (kv : String × Int)
    (h : kv ∈ storeSet st k v) : kv.2 = v ∨ kv ∈ st := by
  induction st with
  | nil => simp [storeSet] at h; simp [h]
  | cons a t ih =>
    by_cases hk : a.1 = k
    · simp only [storeSet, hk, if_pos, List.mem_cons] at h
      rcases h with h | h
      · left; rw [h]
      · right; exact List.mem_cons_of_mem _ h
    · simp only [storeSet, hk, if_neg, not_false_iff, List.mem_cons] at h
      rcases h with h | h
      · right; simp [h]
      · rcases ih h with h | h
        · left; exact h
        · right; exact List.mem_cons_of_mem _ h

theorem mem_storeErase (st : Store) (k : String) (kv : String × Int)
    (h : kv ∈ storeErase st k) : kv ∈ st := by
  induction st with
  | nil => simp [storeErase] at h
  | cons a t ih =>
    by_cases hk : a.1 = k
    · simp only [storeErase, hk, if_pos] at h
      exact List.mem_cons_of_mem _ h
    · simp only [storeErase, hk, if_neg, not_false_iff, List.mem_cons] at h
      rcases h with h | h
      · simp [h]
      · exact List.mem_cons_of_mem _ (ih h)

theorem getD_nonneg_of_allNonneg (st : Store) (k : String)
    (h : allNonneg st) : 0 ≤ (storeGet st k).getD 0 := by
  cases hg : storeGet st k with
  | none => simp
  | some c => simpa using h (k, c) (storeGet_mem st k c hg)

theorem storeSet_of_not_mem (acc : Store) (k : String) (v : Int)
    (h : k ∉ storeKeys acc) : storeSet acc k v = acc ++ [(k, v)] := by
  induction acc with
  | nil => simp [storeSet]
  | cons a t ih =>
    obtain ⟨x, y⟩ := a
    simp only [storeKeys, List.map_cons, List.mem_cons] at h
    push_neg at h
    have hne : x ≠ k := fun hh => h.1 hh.symm
    simp [storeSet, hne, ih (by simpa [storeKeys] using h.2)]

theorem foldl_storeSet_eq_append (pairs : List (String × Int)) :
    ∀ acc : Store, (storeKeys pairs).Nodup →
      (∀ k ∈ storeKeys pairs, k ∉ storeKeys acc) →
      pairs.foldl (fun acc kv => storeSet acc kv.1 kv.2) acc = acc ++ pairs := by
  induction pairs with
  | nil => intro acc _ _; simp
  | cons a t ih =>
    intro acc hnd hdis
    obtain ⟨x, y⟩ := a
    simp only [storeKeys, List.map_cons, List.nodup_cons] at hnd
    have hx : x ∉ storeKeys acc := hdis x (by simp [storeKeys])
    have hdis2 : ∀ k ∈ storeKeys t, k ∉ storeKeys (acc ++ [(x, y)]) := by
      intro k hk hmem
      have hsplit : storeKeys (acc ++ [(x, y)]) = storeKeys acc ++ [x] := by
        simp [storeKeys]
      rw [hsplit, List.mem_append] at hmem
      rcases hmem with hmem | hmem
      · exact hdis k (List.mem_cons_of_mem x hk) hmem
      · have hkx : k = x := by simpa using hmem
        exact hnd.1 (hkx ▸ hk)
    calc ((x, y) :: t).foldl (fun acc kv => storeSet acc kv.1 kv.2) acc
        = t.foldl (fun acc kv => storeSet acc kv.1 kv.2) (storeSet acc x y) := by
          simp
      _ = t.foldl (fun acc kv => storeSet acc kv.1 kv.2) (acc ++ [(x, y)]) := by
          rw [storeSet_of_not_mem acc x y hx]
      _ = (acc ++ [(x, y)]) ++ t := ih (acc ++ [(x, y)]) hnd.2 hdis2
      _ = acc ++ (x, y) :: t := by simp

theorem buildStore_eq_self (st : Store) (h : (storeKeys st).Nodup) :
    buildStore st = st := by
  have := foldl_storeSet_eq_append st [] h (by simp [storeKeys])
  simpa [buildStore] using this

theorem coerceVals_map_num (st : Store) :
    coerceVals (st.map (fun kv => (kv.1, Json.num kv.2))) = Except.ok st := by
  induction st with
  | nil => rfl
  | cons a t ih =>
    obtain ⟨x, y⟩ := a
    simp [coerceVals, pyInt, ih]

theorem pyInt_error_cases (j : Json) (e : Exc) (h : pyInt j = Except.error e) :
    e = Exc.typeError ∨ e = Exc.valueError := by
  cases j with
  | num n => simp [pyInt] at h
  | bool b => simp [pyInt] at h
  | str s =>
    cases hs : s.toInt? with
    | none => simp [pyInt, hs] at h; right; exact h.symm
    | some n => simp [pyInt, hs] at h
  | null => simp [pyInt] at h; left; exact h.symm
  | arr es => simp [pyInt] at h; left; exact h.symm
  | obj kvs => simp [pyInt] at h; left; exact h.symm

theorem coerceVals_error_of_bad (kvs : List (String × Json))
    (h : ∃ kv ∈ kvs, intCoercible kv.2 = false) :
    ∃ e, coerceVals kvs = Except.error e ∧
      (e = Exc.typeError ∨ e = Exc.valueError) := by
  induction kvs with
  | nil => simp at h
  | cons a t ih =>
    obtain ⟨x, v⟩ := a
    cases hv : pyInt v with
    | error e => exact ⟨e, by simp [coerceVals, hv], pyInt_error_cases v e hv⟩
    | ok n =>
      rcases h with ⟨kv, hmem, hbad⟩
      rcases List.mem_cons.mp hmem with heq | hmem2
      · exfalso
        rw [heq] at hbad
        simp only [intCoercible, hv] at hbad
        exact Bool.noConfusion hbad
      · rcases ih ⟨kv, hmem2, hbad⟩ with ⟨e, he, hcl⟩
        refine ⟨e, ?_, hcl⟩
        simp [coerceVals, hv, he]

theorem coerceVals_ok_mem (kvs : List (String × Json))
    (pairs : List (String × Int)) (h : coerceVals kvs = Except.ok pairs) :
    ∀ p ∈ pairs, ∃ kv ∈ kvs, pyInt kv.2 = Except.ok p.2 := by
  induction kvs generalizing pairs with
  | nil =>
    simp only [coerceVals] at h
    cases h
    simp
  | cons a t ih =>
    obtain ⟨x, v⟩ := a
    cases hv : pyInt v with
    | error e => simp [coerceVals, hv] at h
    | ok n =>
      cases ht : coerceVals t with
      | error e => simp [coerceVals, hv, ht] at h
      | ok r =>
        simp only [coerceVals, hv, ht] at h
        cases h
        intro p hp
        rcases List.mem_cons.mp hp with heq | hmem
        · exact ⟨(x, v), List.mem_cons_self _ _, by rw [heq]; exact hv⟩
        · rcases ih r ht p hmem with ⟨kv, hkv, hok⟩
          exact ⟨kv, List.mem_cons_of_mem _ hkv, hok⟩

theorem allNonneg_storeSet (st : Store) (k : String) (v : Int)
    (hst : allNonneg st) (hv : 0 ≤ v) : allNonneg (storeSet st k v) := by
  intro kv hm
  rcases mem_storeSet st k v kv hm with h | h
  · rw [h]; exact hv
  · exact hst kv h

theorem allNonneg_storeErase (st : Store) (k : String)
    (hst : allNonneg st) : allNonneg (storeErase st k) := by
  intro kv hm
  exact hst kv (mem_storeErase st k kv hm)

theorem allNonneg_buildStore (pairs : List (String × Int))
    (h : ∀ p ∈ pairs, 0 ≤ p.2) : allNonneg (buildStore pairs) := by
  suffices hgen : ∀ acc : Store, allNonneg acc →
      allNonneg (pairs.foldl (fun acc kv => storeSet acc kv.1 kv.2) acc) by
    exact hgen [] (by intro kv hm; simp at hm)
  induction pairs with
  | nil => intro acc hacc; simpa using hacc
  | cons a t ih =>
    intro acc hacc
    simp only [List.foldl_cons]
    refine ih (fun p hp => h p (List.mem_cons_of_mem _ hp)) _ ?_
    exact allNonneg_storeSet acc a.1 a.2 hacc (h a (List.mem_cons_self _ _))

/-! Characterisations of the store after each operation. -/

theorem get_qty_store_eq (st : Store) (item : String) :
    (get_qty st item).store = st := by
  unfold get_qty
  cases storeGet st item <;> rfl

theorem check_low_items_store_eq (st : Store) (threshold : PyVal) :
    (check_low_items st threshold).store = st := by
  unfold check_low_items
  cases threshold with
  | int t => by_cases h : t < 0 <;> simp [h]
  | str s => rfl
  | noneVal => rfl
  | floatVal => rfl
  | listVal => rfl

theorem print_data_store_eq (st : Store) : (print_data st).store = st := rfl

theorem add_item_store_cases (st : Store) (i q : PyVal) :
    (add_item st i q).store = st ∨
    ∃ s n, i = PyVal.str s ∧ q = PyVal.int n ∧ 0 ≤ n ∧
      (add_item st i q).store = storeSet st s ((storeGet st s).getD 0 + n) := by
  cases i with
  | str s =>
    by_cases hs : s = ""
    · left; simp [add_item, hs]
    · cases q with
      | int n =>
        by_cases hn : n < 0
        · left; simp [add_item, hs, hn]
        · right
          exact ⟨s, n, rfl, rfl, not_lt.mp hn, by simp [add_item, hs, hn]⟩
      | str s2 => left; simp [add_item, hs]
      | noneVal => left; simp [add_item, hs]
      | floatVal => left; simp [add_item, hs]
      | listVal => left; simp [add_item, hs]
  | int n => left; simp [add_item]
  | noneVal => left; simp [add_item]
  | floatVal => left; simp [add_item]
  | listVal => left; simp [add_item]

theorem remove_item_store_cases (st : Store) (i q : PyVal) :
    (remove_item st i q).store = st ∨
    ∃ s n current, i = PyVal.str s ∧ q = PyVal.int n ∧ 0 < n ∧
      storeGet st s = some current ∧
      ((current ≤ n ∧ (remove_item st i q).store = storeErase st s) ∨
       (n < current ∧ (remove_item st i q).store = storeSet st s (current - n))) := by
  cases i with
  | str s =>
    by_cases hs : s = ""
    · left; simp [remove_item, hs]
    · cases q with
      | int n =>
        by_cases hn : n ≤ 0
        · left; simp [remove_item, hs, hn]
        · cases hc : storeGet st s with
          | none => left; simp [remove_item, hs, hn, hc]
          | some current =>
            right
            refine ⟨s, n, current, rfl, rfl, not_le.mp hn, hc, ?_⟩
            by_cases hcn : current ≤ n
            · left; exact ⟨hcn, by simp [remove_item, hs, hn, hc, hcn]⟩
            · right
              exact ⟨not_le.mp hcn, by simp [remove_item, hs, hn, hc, hcn]⟩
      | str s2 => left; simp [remove_item, hs]
      | noneVal => left; simp [remove_item, hs]
      | floatVal => left; simp [remove_item, hs]
      | listVal => left; simp [remove_item, hs]
  | int n => left; simp [remove_item]
  | noneVal => left; simp [remove_item]
  | floatVal => left; simp [remove_item]
  | listVal => left; simp [remove_item]

theorem load_data_store_cases (st : Store) (c : FileContent) :
    (load_data st c).store = st ∨ (load_data st c).store = [] ∨
    ∃ kvs pairs, c = FileContent.json (Json.obj kvs) ∧
      coerceVals kvs = Except.ok pairs ∧
      (load_data st c).store = buildStore pairs := by
  cases c with
  | missing => right; left; rfl
  | invalidJson => left; rfl
  | json j =>
    cases j with
    | obj kvs =>
      cases hc : coerceVals kvs with
      | ok pairs =>
        right; right
        exact ⟨kvs, pairs, rfl, hc, by simp [load_data, hc]⟩
      | error e => left; simp [load_data, hc]
    | null => left; rfl
    | bool b => left; rfl
    | num n => left; rfl
    | str s => left; rfl
    | arr es => left; rfl

theorem step_preserves_nonneg (st : Store) (op : Op)
    (h : allNonneg st) (hgood : GoodOp op) : allNonneg (step st op) := by
  cases op with
  | add i q =>
    rcases add_item_store_cases st i q with hc | ⟨s, n, _, _, hn, hc⟩
    · simpa [step, hc] using h
    · simp only [step]
      rw [hc]
      exact allNonneg_storeSet _ _ _ h
        (add_nonneg (getD_nonneg_of_allNonneg st s h) hn)
  | remove i q =>
    rcases remove_item_store_cases st i q with
      hc | ⟨s, n, current, _, _, hn, hcur, hcase⟩
    · simpa [step, hc] using h
    · rcases hcase with ⟨_, hc⟩ | ⟨hlt, hc⟩
      · simp only [step]
        rw [hc]
        exact allNonneg_storeErase st s h
      · simp only [step]
        rw [hc]
        exact allNonneg_storeSet _ _ _ h (by omega)
  | getQty i => simpa [step, get_qty_store_eq] using h
  | checkLow t => simpa [step, check_low_items_store_eq] using h
  | load c =>
    rcases load_data_store_cases st c with hc | hc | ⟨kvs, pairs, hceq, hok, hc⟩
    · simpa [step, hc] using h
    · simp only [step]
      rw [hc]
      intro kv hkv
      simp at hkv
    · subst hceq
      simp only [step]
      rw [hc]
      simp only [GoodOp] at hgood
      refine allNonneg_buildStore pairs ?_
      intro p hp
      rcases coerceVals_ok_mem kvs pairs hok p hp with ⟨kv, hkv, hpy⟩
      exact hgood kv hkv p.2 hpy
  | save => simpa [step] using h
  | printReport => simpa [step, print_data_store_eq] using h

theorem foldl_step_nonneg (ops : List Op) :
    ∀ st : Store, allNonneg st → (∀ op ∈ ops, GoodOp op) →
      allNonneg (ops.foldl step st) := by
  induction ops with
  | nil => intro st h _; simpa using h
  | cons op t ih =>
    intro st h hops
    simp only [List.foldl_cons]
    exact ih (step st op)
      (step_preserves_nonneg st op h (hops op (List.mem_cons_self _ _)))
      (fun o ho => hops o (List.mem_cons_of_mem _ ho))

theorem addAll_lookup_some (item : String) (hitem : item ≠ "") :
    ∀ (qs : List Int) (st : Store) (c : Int), (∀ q ∈ qs, 0 ≤ q) →
      storeGet st item = some c →
      storeGet (addAll st item qs) item = some (c + qs.sum) := by
  intro qs
  induction qs with
  | nil => intro st c _ hc; simpa [addAll] using hc
  | cons q t ih =>
    intro st c hall hc
    have hq0 : 0 ≤ q := hall q (List.mem_cons_self _ _)
    have hstep : addAll st item (q :: t) = addAll (storeSet st item (c + q)) item t := by
      simp [addAll, add_item, hitem, not_lt.mpr hq0, hc]
    rw [hstep,
      ih (storeSet st item (c + q)) (c + q)
        (fun x hx => hall x (List.mem_cons_of_mem _ hx))
        (storeGet_set_self st item (c + q))]
    simp [List.sum_cons]
    ring

/-! Claim theorems. -/

/-- C1: for every store, non-empty `item` and integer `qty ≥ 0`,
`add_item` succeeds and `get_qty(item)` afterwards returns the previous
quantity (0 when absent) plus `qty`; over any non-empty sequence of valid
adds for an absent item, `get_qty` returns the cumulative sum. -/
theorem add_then_get_cumulative (st : Store) (item : String) (qty : Int)
    (hitem : item ≠ "") (hqty : 0 ≤ qty) :
    (add_item st (PyVal.str item) (PyVal.int qty)).result = Except.ok () ∧
    (get_qty (add_item st (PyVal.str item) (PyVal.int qty)).store item).result
      = Except.ok ((storeGet st item).getD 0 + qty) ∧
    (∀ qs : List Int, (∀ q ∈ qs, 0 ≤ q) → storeGet st item = none → qs ≠ [] →
      (get_qty (addAll st item qs) item).result = Except.ok qs.sum) := by
  refine ⟨?_, ?_, ?_⟩
  · simp [add_item, hitem, not_lt.mpr hqty]
  · have hst : (add_item st (PyVal.str item) (PyVal.int qty)).store
        = storeSet st item ((storeGet st item).getD 0 + qty) := by
      simp [add_item, hitem, not_lt.mpr hqty]
    rw [hst]
    simp [get_qty, storeGet_set_self]
  · intro qs hall habs hne
    cases qs with
    | nil => exact absurd rfl hne
    | cons q t =>
      have hq0 : 0 ≤ q := hall q (List.mem_cons_self _ _)
      have hstep : addAll st item (q :: t)
          = addAll (storeSet st item q) item t := by
        simp [addAll, add_item, hitem, not_lt.mpr hq0, habs]
      have hget := addAll_lookup_some item hitem t
        (storeSet st item q) q
        (fun x hx => hall x (List.mem_cons_of_mem _ hx))
        (storeGet_set_self st item q)
      rw [hstep]
      simp [get_qty, hget, List.sum_cons]

/-- Witness for C1 at `st = []`, `item = "a"`, `qty = 2`. -/
theorem add_then_get_cumulative_witness :
    (add_item [] (PyVal.str "a") (PyVal.int 2)).result = Except.ok () ∧
    (get_qty (add_item [] (PyVal.str "a") (PyVal.int 2)).store "a").result
      = Except.ok ((storeGet [] "a").getD 0 + 2) :=
  ⟨(add_then_get_cumulative [] "a" 2 (by decide) (by decide)).1,
   (add_then_get_cumulative [] "a" 2 (by decide) (by decide)).2.1⟩

/-- C2: for a store containing `item` at quantity `c` (a dict state, so
keys are distinct) and a strictly positive integer `qty`: when `qty ≥ c`
the removal succeeds, deletes the entry and a subsequent `get_qty` raises
`KeyError`; when `qty < c` it succeeds and leaves the strictly positive
quantity `c - qty`. -/
theorem remove_deletes_or_decrements (st : Store) (item : String)
    (c qty : Int) (hnd : (storeKeys st).Nodup) (hitem : item ≠ "")
    (hcur : storeGet st item = some c) (hq : 0 < qty) :
    (c ≤ qty →
      (remove_item st (PyVal.str item) (PyVal.int qty)).result = Except.ok () ∧
      (get_qty (remove_item st (PyVal.str item) (PyVal.int qty)).store
        item).result = Except.error (Exc.keyError item)) ∧
    (qty < c →
      (remove_item st (PyVal.str item) (PyVal.int qty)).result = Except.ok () ∧
      storeGet (remove_item st (PyVal.str item) (PyVal.int qty)).store item
        = some (c - qty) ∧ 0 < c - qty) := by
  have hqle : ¬ qty ≤ 0 := not_le.mpr hq
  constructor
  · intro hcq
    have hst : (remove_item st (PyVal.str item) (PyVal.int qty)).store
        = storeErase st item := by
      simp [remove_item, hitem, hqle, hcur, hcq]
    refine ⟨by simp [remove_item, hitem, hqle, hcur, hcq], ?_⟩
    rw [hst]
    simp [get_qty, storeGet_erase_self st item hnd]
  · intro hqc
    have hcq : ¬ c ≤ qty := not_le.mpr hqc
    have hst : (remove_item st (PyVal.str item) (PyVal.int qty)).store
        = storeSet st item (c - qty) := by
      simp [remove_item, hitem, hqle, hcur, hcq]
    refine ⟨by simp [remove_item, hitem, hqle, hcur, hcq], ?_, by omega⟩
    rw [hst]
    exact storeGet_set_self st item (c - qty)

/-- Witness for C2 at `st = [("a", 5)]`, `qty = 2 < 5`. -/
theorem remove_deletes_or_decrements_witness :
    (remove_item [("a", 5)] (PyVal.str "a") (PyVal.int 2)).result
      = Except.ok () ∧
    storeGet (remove_item [("a", 5)] (PyVal.str "a") (PyVal.int 2)).store "a"
      = some 3 ∧ (0:Int) < 3 :=
  (remove_deletes_or_decrements [("a", 5)] "a" 5 2 (by simp [storeKeys])
    (by decide) (by simp [storeGet]) (by decide)).2 (by decide)

/-- C3: loading the document written by a successful save (from any prior
in-memory store) succeeds and reproduces exactly the saved key→quantity
pairs. -/
theorem save_load_roundtrip (st0 st : Store)
    (hnd : (storeKeys st).Nodup) :
    (load_data st0 (save_content st)).result = Except.ok () ∧
    (load_data st0 (save_content st)).store = st := by
  have hcv := coerceVals_map_num st
  constructor
  · simp [load_data, save_content, hcv]
  · have hst : (load_data st0 (save_content st)).store = buildStore st := by
      simp [load_data, save_content, hcv]
    rw [hst, buildStore_eq_self st hnd]

/-- Witness for C3 at `st0 = [("z", 9)]`, `st = [("a", 1), ("b", 2)]`. -/
theorem save_load_roundtrip_witness :
    (load_data [("z", 9)] (save_content [("a", 1), ("b", 2)])).result
      = Except.ok () ∧
    (load_data [("z", 9)] (save_content [("a", 1), ("b", 2)])).store
      = [("a", 1), ("b", 2)] :=
  save_load_roundtrip [("z", 9)] [("a", 1), ("b", 2)] (by simp [storeKeys])

/-- C4: when the file exists but holds malformed JSON, a non-object JSON
document, or an object with a value `int` cannot coerce, `load_data`
raises (the parse-failure exceptions `json.JSONDecodeError`, `ValueError`
or `TypeError`, the spec's `ParseError`) and the in-memory store is
exactly what it was before the call. -/
theorem load_bad_file_parse_error (st : Store) (c : FileContent)
    (hbad : c = FileContent.invalidJson ∨
      (∃ j, c = FileContent.json j ∧ ∀ kvs, j ≠ Json.obj kvs) ∨
      (∃ kvs, c = FileContent.json (Json.obj kvs) ∧
        ∃ kv ∈ kvs, intCoercible kv.2 = false)) :
    ∃ e : Exc, (load_data st c).result = Except.error e ∧
      (e = Exc.jsonDecodeError ∨ e = Exc.valueError ∨ e = Exc.typeError) ∧
      (load_data st c).store = st := by
  rcases hbad with hbad | ⟨j, hc, hj⟩ | ⟨kvs, hc, hkv⟩
  · subst hbad
    exact ⟨Exc.jsonDecodeError, rfl, Or.inl rfl, rfl⟩
  · subst hc
    refine ⟨Exc.valueError, ?_, Or.inr (Or.inl rfl), ?_⟩ <;>
      cases j with
      | obj kvs => exact absurd rfl (hj kvs)
      | null => rfl
      | bool b => rfl
      | num n => rfl
      | str s => rfl
      | arr es => rfl
  · subst hc
    rcases coerceVals_error_of_bad kvs hkv with ⟨e, he, hclass⟩
    refine ⟨e, ?_, ?_, ?_⟩
    · simp [load_data, he]
    · rcases hclass with h | h
      · right; right; exact h
      · right; left; exact h
    · simp [load_data, he]

/-- Witness for C4 at a file holding the object with a null value. -/
theorem load_bad_file_parse_error_witness :
    ∃ e : Exc,
      (load_data [("a", 1)]
        (FileContent.json (Json.obj [("x", Json.null)]))).result
        = Except.error e ∧
      (e = Exc.jsonDecodeError ∨ e = Exc.valueError ∨ e = Exc.typeError) ∧
      (load_data [("a", 1)]
        (FileContent.json (Json.obj [("x", Json.null)]))).store = [("a", 1)] :=
  load_bad_file_parse_error [("a", 1)]
    (FileContent.json (Json.obj [("x", Json.null)]))
    (Or.inr (Or.inr ⟨[("x", Json.null)], rfl,
      ⟨("x", Json.null), List.mem_cons_self _ _, rfl⟩⟩))

/-- C5: loading a nonexistent path never raises: the store becomes the
empty mapping and a warning is recorded. -/
theorem load_missing_file_empty (st : Store) :
    (load_data st FileContent.missing).result = Except.ok () ∧
    (load_data st FileContent.missing).store = [] ∧
    LogMsg.warnFileNotFound ∈ (load_data st FileContent.missing).logs := by
  refine ⟨rfl, rfl, ?_⟩
  simp [load_data]

/-- C6: `check_low_items` with a non-negative integer threshold returns
exactly the names with quantity strictly below the threshold, in the
mapping's insertion order; a negative or non-integer threshold raises
`ValueError` (the spec's `InvalidArgument`). -/
theorem check_low_items_spec (st : Store) (tv : PyVal) :
    (∀ t : Int, tv = PyVal.int t → 0 ≤ t →
      (check_low_items st tv).result =
        Except.ok ((st.filter (fun kv => kv.2 < t)).map Prod.fst)) ∧
    (∀ t : Int, tv = PyVal.int t → t < 0 →
      (check_low_items st tv).result = Except.error Exc.valueError) ∧
    ((∀ t : Int, tv ≠ PyVal.int t) →
      (check_low_items st tv).result = Except.error Exc.valueError) := by
  refine ⟨?_, ?_, ?_⟩
  · intro t ht h0
    subst ht
    simp [check_low_items, not_lt.mpr h0]
  · intro t ht hneg
    subst ht
    simp [check_low_items, hneg]
  · intro hno
    cases tv with
    | int t => exact absurd rfl (hno t)
    | str s => rfl
    | noneVal => rfl
    | floatVal => rfl
    | listVal => rfl

/-- Witness for C6 at `st = [("a", 1), ("b", 7)]`, threshold 5. -/
theorem check_low_items_spec_witness :
    (check_low_items [("a", 1), ("b", 7)] (PyVal.int 5)).result
      = Except.ok ["a"] := by
  have h := (check_low_items_spec [("a", 1), ("b", 7)] (PyVal.int 5)).1
    5 rfl (by decide)
  rw [h]
  rfl

/-- C7 counterexample: loading a file whose object maps a key to a
negative integer is an operation from the empty inventory, and it reaches
a state storing a negative quantity, so the non-negativity invariant is
not preserved by every operation. -/
theorem nonneg_invariant_cex :
    Reachable [("x", -1)] ∧ ¬ allNonneg [("x", -1)] := by
  constructor
  · exact ⟨[Op.load (FileContent.json (Json.obj [("x", Json.num (-1))]))],
      by rfl⟩
  · intro h
    have := h ("x", -1) (List.mem_singleton.mpr rfl)
    omega

/-- C7 amended: every operation except a load of a file containing a
negative integer-coercible value preserves the invariant that all stored
quantities are ≥ 0; in particular every state reachable from the empty
inventory by such operations satisfies it. -/
theorem nonneg_invariant_amended (ops : List Op)
    (hops : ∀ op ∈ ops, GoodOp op) : allNonneg (ops.foldl step []) :=
  foldl_step_nonneg ops [] (by intro kv hkv; simp at hkv) hops

/-- Witness for amended C7 on a concrete operation sequence. -/
theorem nonneg_invariant_amended_witness :
    allNonneg ([Op.add (PyVal.str "a") (PyVal.int 3),
      Op.load FileContent.missing, Op.save].foldl step []) := by
  refine nonneg_invariant_amended _ ?_
  intro op hop
  simp only [List.mem_cons, List.not_mem_nil, or_false] at hop
  rcases hop with rfl | rfl | rfl
  · trivial
  · trivial
  · trivial

/-- C8 counterexample: `add("x", 0)` on the absent item "x" stores the
entry with quantity 0 (and that state is reachable from empty), so an
item with quantity 0 can be stored in the mapping. -/
theorem zero_entry_cex :
    Reachable [("x", 0)] ∧
    storeGet (add_item [] (PyVal.str "x") (PyVal.int 0)).store "x"
      = some 0 := by
  constructor
  · exact ⟨[Op.add (PyVal.str "x") (PyVal.int 0)], by rfl⟩
  · rfl

/-- C8 amended: a successful `remove_item` never leaves the removed item
stored with quantity 0 (the entry is deleted once the quantity would drop
to 0 or below, otherwise a strictly positive remainder stays); however
`add(item, 0)` on an absent item and a load of a file mapping a key to 0
do store a quantity-0 entry. -/
theorem zero_entry_amended :
    (∀ (st : Store) (item : String) (qty : Int),
      (storeKeys st).Nodup →
      (remove_item st (PyVal.str item) (PyVal.int qty)).result
        = Except.ok () →
      storeGet (remove_item st (PyVal.str item) (PyVal.int qty)).store item
          = none ∨
        ∃ m : Int, 0 < m ∧
          storeGet (remove_item st (PyVal.str item) (PyVal.int qty)).store
            item = some m) ∧
    storeGet (add_item [] (PyVal.str "x") (PyVal.int 0)).store "x"
      = some 0 ∧
    storeGet (load_data [] (FileContent.json
      (Json.obj [("k", Json.num 0)]))).store "k" = some 0 := by
  refine ⟨?_, rfl, rfl⟩
  intro st item qty hnd hok
  by_cases hitem : item = ""
  · simp [remove_item, hitem] at hok
  · by_cases hq : qty ≤ 0
    · simp [remove_item, hitem, hq] at hok
    · cases hc : storeGet st item with
      | none => simp [remove_item, hitem, hq, hc] at hok
      | some c =>
        by_cases hcq : c ≤ qty
        · left
          have hst : (remove_item st (PyVal.str item) (PyVal.int qty)).store
              = storeErase st item := by
            simp [remove_item, hitem, hq, hc, hcq]
          rw [hst]
          exact storeGet_erase_self st item hnd
        · right
          refine ⟨c - qty, by omega, ?_⟩
          have hst : (remove_item st (PyVal.str item) (PyVal.int qty)).store
              = storeSet st item (c - qty) := by
            simp [remove_item, hitem, hq, hc, hcq]
          rw [hst]
          exact storeGet_set_self st item (c - qty)

/-- Witness for amended C8: removing the full quantity deletes the entry. -/
theorem zero_entry_amended_witness :
    storeGet (remove_item [("a", 1)] (PyVal.str "a") (PyVal.int 1)).store "a"
        = none ∨
      ∃ m : Int, 0 < m ∧
        storeGet (remove_item [("a", 1)] (PyVal.str "a") (PyVal.int 1)).store
          "a" = some m :=
  zero_entry_amended.1 [("a", 1)] "a" 1 (by simp [storeKeys]) (by rfl)

/-- C9 counterexample: after loading a file with a negative value, the
reachable state `[("x", -1)]` makes `check_low_items(0)` return `["x"]`,
not the empty sequence. -/
theorem check_low_zero_cex :
    Reachable [("x", -1)] ∧
    (check_low_items [("x", -1)] (PyVal.int 0)).result
      = Except.ok ["x"] := by
  constructor
  · exact ⟨[Op.load (FileContent.json (Json.obj [("x", Json.num (-1))]))],
      by rfl⟩
  · rfl

/-- C9 amended: on every store whose quantities are all non-negative (in
particular every state reachable without loading negative values),
`check_low_items(0)` returns the empty sequence. -/
theorem check_low_zero_amended (st : Store) (h : allNonneg st) :
    (check_low_items st (PyVal.int 0)).result = Except.ok [] := by
  have hfil : st.filter (fun kv => kv.2 < 0) = [] := by
    rw [List.filter_eq_nil_iff]
    intro kv hkv
    simpa using not_lt.mpr (h kv hkv)
  simp [check_low_items, hfil]

/-- Witness for amended C9 at `st = [("a", 3)]`. -/
theorem check_low_zero_amended_witness :
    (check_low_items [("a", 3)] (PyVal.int 0)).result = Except.ok [] :=
  check_low_zero_amended [("a", 3)]
    (by intro kv hkv; rw [List.mem_singleton] at hkv; subst hkv; norm_num)

/-- C10: the queries `get_qty`, `check_low_items` and `print_data` leave
the store untouched, whatever their arguments and outcome. -/
theorem queries_leave_store_unchanged (st : Store) (item : String)
    (threshold : PyVal) :
    (get_qty st item).store = st ∧
    (check_low_items st threshold).store = st ∧
    (print_data st).store = st :=
  ⟨get_qty_store_eq st item, check_low_items_store_eq st threshold,
   print_data_store_eq st⟩
